import Mathlib

/-!
# Verification of the `midbel/cli` command-line library

A shallow embedding of the Go sources of `midbel/cli` (files `cli.go`,
`size.go` and the dispatcher file containing `Run`/`RunAndExit`), together
with proofs about the embedded definitions.

Modelling conventions:
* Go `float64` values are modelled as exact rationals (`ℚ`); every numeric
  computation appearing in the verified claims is exactly representable.
* Go `uint32` counters are modelled as `ℕ` reduced modulo `2^32`.
* Go `int64` is modelled as `ℤ`; the `int64(float64)` conversion truncates
  toward zero.
* Fallible operations return `Option`/pairs carrying the error message.
* Standard-library collaborators (`flag`, `fmt.Sscanf`, `strconv`,
  `math/rand`, `sync/atomic`) are modelled from their documented behavior,
  restricted to the features this program exercises (boolean flags,
  decimal float literals).
-/

namespace Cli

/-! ## Unit sizes (`size.go`)

`type Size float64` with constants `Kilo = 1024`, `Mega = Kilo*Kilo`,
`Giga = Mega*Kilo`. -/

def Kilo : ℚ := 1024
def Mega : ℚ := Kilo * Kilo
def Giga : ℚ := Mega * Kilo

/-- Decimal digit test, as a `Bool` on `Char` (ASCII `0`–`9`). -/
def isDigitCh (c : Char) : Bool := 48 ≤ c.toNat && c.toNat ≤ 57

/-- Numeric value of an ASCII digit. -/
def digitVal (c : Char) : ℕ := c.toNat - 48

/-- Value of a digit string, most significant digit first. -/
def digitsToNat (ds : List Char) : ℕ := ds.foldl (fun a c => a * 10 + digitVal c) 0

/-- A scanned decimal floating-point token, kept in integer form so that the
exact rational value can be assembled afterwards: `digits` are the mantissa
digits (integer part followed by fractional part), `fracLen` the number of
fractional digits, and the exponent is a signed natural. -/
structure FloatTok where
  neg : Bool
  digits : ℕ
  fracLen : ℕ
  expNeg : Bool
  expVal : ℕ
  deriving DecidableEq, Repr

/-- Exact rational value of a scanned float token. -/
def FloatTok.value (t : FloatTok) : ℚ :=
  let m : ℚ := (t.digits : ℚ) / (10 : ℚ) ^ t.fracLen
  let m := if t.neg then -m else m
  if t.expNeg then m / (10 : ℚ) ^ t.expVal else m * (10 : ℚ) ^ t.expVal

/-- Scans a leading decimal float literal (`fmt`'s `%f` verb, restricted to
the decimal forms this program uses): optional sign, digits, optional dot
and fraction digits, optional `e`/`E` exponent with optional sign. Returns
the token and the unconsumed remainder, or `none` when the token is absent
or malformed (in Go: `Sscanf` reports zero scanned items and an error). -/
def scanFloatTok (cs : List Char) : Option (FloatTok × List Char) :=
  let signed : Bool × List Char :=
    match cs with
    | '-' :: t => (true, t)
    | '+' :: t => (false, t)
    | _ => (false, cs)
  let neg := signed.1
  let ip := signed.2.takeWhile isDigitCh
  let r1 := signed.2.dropWhile isDigitCh
  let fracked : List Char × List Char :=
    match r1 with
    | '.' :: t => (t.takeWhile isDigitCh, t.dropWhile isDigitCh)
    | _ => ([], r1)
  let fp := fracked.1
  let r2 := fracked.2
  if ip ++ fp = [] then none
  else
    match r2 with
    | e :: t =>
      if e = 'e' ∨ e = 'E' then
        let esigned : Bool × List Char :=
          match t with
          | '-' :: u => (true, u)
          | '+' :: u => (false, u)
          | _ => (false, t)
        let ed := esigned.2.takeWhile isDigitCh
        let r3 := esigned.2.dropWhile isDigitCh
        if ed = [] then none
        else some (⟨neg, digitsToNat (ip ++ fp), fp.length, esigned.1, digitsToNat ed⟩, r3)
      else some (⟨neg, digitsToNat (ip ++ fp), fp.length, false, 0⟩, r2)
    | [] => some (⟨neg, digitsToNat (ip ++ fp), fp.length, false, 0⟩, [])

/-- Embeds `fmt.Sscanf(v, "%f%s", &f, &u)` as used by `Size.Set`: scan a
float (leading spaces skipped), then a space-delimited word into `u`
(empty when the input is exhausted, in which case Go reports `n = 1` and
`Size.Set` still proceeds because it only aborts when `n == 0`). -/
def scanSize (v : String) : Option (FloatTok × String) :=
  let cs := v.toList.dropWhile (· = ' ')
  match scanFloatTok cs with
  | none => none
  | some (t, rest) =>
    let rest1 := rest.dropWhile (· = ' ')
    some (t, String.mk (rest1.takeWhile (· ≠ ' ')))

/-- The multiplier applied by the `switch u` in `Size.Set`; `none` for the
`default` branch. The Go arithmetic is on integer constants, so
`1024 / 8 = 128` and so on are exact. -/
def unitFactor : String → Option ℚ
  | "" | "B" => some 1
  | "b" => some (1 / 8)
  | "KB" | "K" => some 1024
  | "kb" | "k" => some (1024 / 8)
  | "MB" | "M" => some (1024 * 1024)
  | "mb" | "m" => some (1024 * 1024 / 8)
  | "GB" | "G" => some (1024 * 1024 * 1024)
  | "gb" | "g" => some (1024 * 1024 * 1024 / 8)
  | _ => none

/-- Embeds `Size.Set` with its receiver made explicit: given the current
value `s` and the input `v`, returns the error (if any) and the value of
the receiver after the call. The two early `return err` paths leave the
receiver untouched; only the fall-through executes `*s = Size(f)`. The
scan-failure message is modelled abstractly (it is `fmt` internal text);
the unknown-unit message is the exact `fmt.Errorf` text. -/
def sizeSet (s : ℚ) (v : String) : Option String × ℚ :=
  match scanSize v with
  | none => (some "scan error", s)
  | some (t, u) =>
    match unitFactor u with
    | none => (some ("unknown unit given " ++ u), s)
    | some k => (none, t.value * k)

/-- Embeds `formatSize` (and the identical `Size.String` of `cli.go`) up to
decimal rendering: the magnitude and the unit chosen by the `switch`. -/
def formatSize (s : ℚ) : ℚ × String :=
  if s < Kilo then (s, "B")
  else if Kilo ≤ s ∧ s < Mega then (s / Giga, "KB")
  else if Mega ≤ s ∧ s < Giga then (s / Mega, "MB")
  else (s / Giga, "GB")

/-- Renders a rational with exactly two fractional digits (`%.2f`); the
nearest-value rounding of `fmt` is modelled with half-up rounding, which
agrees with it on every value without an exact decimal tie. -/
def fixed2 (q : ℚ) : String :=
  let n : ℤ := ⌊q * 100 + 1 / 2⌋
  let sgn := if n < 0 then "-" else ""
  let m := n.natAbs
  let fp := m % 100
  sgn ++ toString (m / 100) ++ "." ++ (if fp < 10 then "0" else "") ++ toString fp

/-- The full string produced by `formatSize`: `fmt.Sprintf("%.2f%s", v, u)`. -/
def formatSizeStr (s : ℚ) : String :=
  fixed2 (formatSize s).1 ++ (formatSize s).2

/-- Go `int64(float64)` conversion: truncation toward zero. -/
def truncInt (q : ℚ) : ℤ := if 0 ≤ q then ⌊q⌋ else ⌈q⌉

/-! ## Rotating multi-size (`size.go`) -/

/-- `2^32`, the modulus of the `uint32` rotation counter. -/
def U32 : ℕ := 4294967296

/-- Embeds `MultiSize`: the random-mode flag `Alea`, the `uint32` rotation
counter `curr` (a natural, kept below `U32`), and the size sequence. -/
structure MultiSize where
  Alea : Bool
  curr : ℕ
  sizes : List ℚ

/-- Embeds `MultiSize.Next`: atomically increment the counter (with `uint32`
wraparound) and index the sequence at `counter mod length`. Returns the
chosen element and the new state. (Go panics on an empty sequence — the
spec makes non-emptiness a precondition; the embedding returns a default.) -/
def MultiSize.next (m : MultiSize) : ℚ × MultiSize :=
  let ix := (m.curr + 1) % U32
  (m.sizes.getD (ix % m.sizes.length) 0, { m with curr := ix })

/-- State after `k` successive `Next` calls. -/
def MultiSize.stateAfter (m : MultiSize) : ℕ → MultiSize
  | 0 => m
  | k + 1 => (m.stateAfter k).next.2

/-- Value returned by call number `k + 1` (`call 0` is the first call) in a
run of successive `Next` calls starting from state `m`. -/
def MultiSize.call (m : MultiSize) (k : ℕ) : ℚ := (m.stateAfter k).next.1

/-- Embeds `MultiSize.Float`: rotate, then an `if m.Alea { }` branch whose
body is empty in the source, then return the element's float value. -/
def MultiSize.float (m : MultiSize) : ℚ × MultiSize :=
  let r := m.next
  (r.1, r.2)

/-- Embeds `MultiSize.Int`. `rand.Int63n(n)` is modelled from its
documentation: it panics when `n ≤ 0` (modelled as `none`) and otherwise
returns some integer in `[0, n)`, supplied here by the oracle `rng`
(theorems assume the oracle satisfies that range contract). -/
def MultiSize.int (m : MultiSize) (rng : ℤ → ℤ) : Option ℤ × MultiSize :=
  let r := m.next
  if m.Alea then
    (if truncInt r.1 ≤ 0 then none else some (rng (truncInt r.1)), r.2)
  else (some (truncInt r.1), r.2)

/-! ## Errors of the dispatcher file

The dynamic Go `error` values this program creates and inspects, as an
inductive type: `SuggestError` (a leaf, no `Unwrap`), `*ExitError`
(unwraps to its inner error), plain leaf errors (`fmt.Errorf` without
`%w`, flag-parse errors, arbitrary sub-command errors), and wrapper
errors with their own message (an error whose `Unwrap` yields another,
as a sub-command may return). -/

inductive GoError where
  | suggest (cmd : String)
  | exit (code : ℤ) (inner : GoError)
  | mk (msg : String)
  | wrap (msg : String) (inner : GoError)
  deriving DecidableEq, Repr

/-- `errors.As(err, &suggest)`: the first `SuggestError` on the `Unwrap`
chain, carrying the unmatched token. -/
def findSuggest : GoError → Option String
  | .suggest c => some c
  | .exit _ inner => findSuggest inner
  | .wrap _ inner => findSuggest inner
  | .mk _ => none

/-- `errors.As(err, &exit)`: the first `*ExitError` on the `Unwrap` chain,
as its carried code and wrapped inner error. -/
def findExit : GoError → Option (ℤ × GoError)
  | .exit code inner => some (code, inner)
  | .wrap _ inner => findExit inner
  | .suggest _ => none
  | .mk _ => none

/-- The `Error()` method. `SuggestError.Error` interpolates the program
name (`filepath.Base(os.Args[0])`), passed here as `exec`;
`ExitError.Error` delegates to the wrapped error. -/
def errMsg (exec : String) : GoError → String
  | .suggest c => c ++ ": unknown sub-command. run \"" ++ exec ++ " help\" for usage"
  | .exit _ inner => errMsg exec inner
  | .mk m => m
  | .wrap m _ => m

/-! ## Commands and the dispatcher -/

/-- Embeds `Command`. The run function is `Option`-valued: `none` models a
nil `Run` field (a non-runnable, help-only entry). `Desc`, `Short` and the
owned flag set play no part in the verified claims and are omitted. -/
structure Command where
  Usage : String
  Default : Bool := false
  Alias : List String := []
  Run : Option (List String → Option GoError) := none

/-- Embeds `Command.String()`: the canonical name, i.e. the prefix of the
usage string up to the first space (the whole string when it has none). -/
def Command.name (c : Command) : String :=
  String.mk (c.Usage.toList.takeWhile (· ≠ ' '))

/-- Embeds `Command.Runnable()`: the run function is non-nil. -/
def Command.Runnable (c : Command) : Bool := c.Run.isSome

/-- `strings.HasPrefix`. -/
def listPrefix : List Char → List Char → Bool
  | _, [] => true
  | [], _ :: _ => false
  | a :: as, b :: bs => a = b && listPrefix as bs

def strHasPrefix (s pre : String) : Bool := listPrefix s.toList pre.toList

/-- `strconv.ParseBool`, used by the flag package for boolean flag values. -/
def parseBool : String → Option Bool
  | "1" | "t" | "T" | "true" | "TRUE" | "True" => some true
  | "0" | "f" | "F" | "false" | "FALSE" | "False" => some false
  | _ => none

/-- Outcome of `fset.Parse`: the two boolean flags and the positional
remainder, or the error message (`flag.ContinueOnError` returns it). -/
inductive ParseOut where
  | ok (short long : Bool) (rest : List String)
  | fail (msg : String)
  deriving DecidableEq, Repr

/-- Embeds the `flag` package parse loop for a set holding exactly the two
boolean flags `-v` and `-version` (as `Run` declares), modelled from
`flag.(*FlagSet).parseOne`: stop at the first token that is not a flag
(shorter than two characters or not starting with `-`), consume a bare
`--` and stop, reject malformed names (`bad flag syntax`), split an
embedded `=value`, treat `-h`/`-help` as the help request error, reject
unknown names with the `flag provided but not defined: -name` message,
and set a recognized boolean flag (to `true`, or to its parsed `=value`,
failing on an unparsable value). Byte indexing of Go strings coincides
with character indexing on everything compared against ASCII. -/
def parseLoop (short long : Bool) : List String → ParseOut
  | [] => .ok short long []
  | s :: rest =>
    let cs := s.toList
    if cs.length < 2 ∨ cs.headD ' ' ≠ '-' then .ok short long (s :: rest)
    else if cs = ['-', '-'] then .ok short long rest
    else
      let body := cs.tail
      let nm := if body.headD ' ' = '-' then body.tail else body
      if nm = [] ∨ nm.headD ' ' = '-' ∨ nm.headD ' ' = '=' then
        .fail ("bad flag syntax: " ++ s)
      else
        let name := String.mk (nm.takeWhile (· ≠ '='))
        let rem := nm.dropWhile (· ≠ '=')
        if name = "v" ∨ name = "version" then
          match rem with
          | [] => -- no `=value`: a boolean flag is set to true
            if name = "v" then parseLoop true long rest else parseLoop short true rest
          | _ :: value =>
            match parseBool (String.mk value) with
            | some b =>
              if name = "v" then parseLoop b long rest else parseLoop short b rest
            | none =>
              .fail ("invalid boolean value \"" ++ String.mk value ++ "\" for -"
                ++ name ++ ": parse error")
        else if name = "help" ∨ name = "h" then .fail "flag: help requested"
        else .fail ("flag provided but not defined: -" ++ name)

/-- `fset.Parse(os.Args[1:])` with fresh flag values. -/
def parseGlobal (args : List String) : ParseOut := parseLoop false false args

/-- The outcome of `Run`, with the side-effecting branches made explicit:
`version` prints the version line to standard output and returns `nil`;
`usage` invokes the usage callback and returns `nil`; `dispatched c args`
wires `c`'s help hook and tail-calls `c.Run(c, args)` (whose error `Run`
returns verbatim); `error e` returns the error `e`. -/
inductive RunResult where
  | version
  | usage
  | dispatched (c : Command) (args : List String)
  | error (e : GoError)

/-- Embeds the name→command map built over runnable commands and their
aliases, plus the lookup: Go map writes are in registry order, so for a
duplicated key the last registered runnable owner wins. -/
def lookupCmd (cs : List Command) (k : String) : Option Command :=
  cs.foldl (fun acc c =>
    if c.Runnable ∧ (c.name = k ∨ k ∈ c.Alias) then some c else acc) none

/-- Embeds `tryDefault`: the first command whose `Default` flag is set is
invoked with the full `os.Args[1:]`; with no default command an error is
returned. -/
def tryDefault (cs : List Command) (osArgs : List String) : RunResult :=
  match cs.find? (·.Default) with
  | some cmd => .dispatched cmd osArgs
  | none => .error (.mk "no sub-command given!")

/-- Embeds `Run` of the dispatcher file. `osArgs` is `os.Args[1:]`.
`gargs` models the positional arguments of the package-global
`flag.CommandLine` set, which line
`version.Short || version.Long || (flag.NArg() > 0 && flag.Arg(0) == "version")`
consults (not the local `fset`); since nothing in this program ever
parses the global set, `gargs = []` at every actual call. -/
def Run (cs : List Command) (osArgs gargs : List String) : RunResult :=
  match parseGlobal osArgs with
  | .fail msg =>
    if ¬ strHasPrefix msg "flag provided but not defined" then .error (.mk msg)
    else tryDefault cs osArgs
  | .ok short long pos =>
    if short ∨ long ∨ (gargs.length > 0 ∧ gargs.headD "" = "version")
    then .version
    else if pos.length = 0 ∨ pos.headD "" = "help" then .usage
    else
      match lookupCmd cs (pos.headD "") with
      | some c => .dispatched c pos.tail
      | none => .error (.suggest (pos.headD ""))

/-! ## Suggestion engine -/

/-- Naive Levenshtein distance with a structural fuel argument (the fuel is
always sufficient at the stated initial value, and makes the definition
kernel-reducible). Unit cost for insert, delete and substitute. -/
def levF : ℕ → List Char → List Char → ℕ
  | 0, _, _ => 0
  | _ + 1, [], ys => ys.length
  | _ + 1, x :: xs, [] => (x :: xs).length
  | f + 1, x :: xs, y :: ys =>
    if x = y then levF f xs ys
    else 1 + min (levF f xs (y :: ys)) (min (levF f (x :: xs) ys) (levF f xs ys))

/-- Edit distance between two strings. -/
def lev (a b : String) : ℕ := levF (a.toList.length + b.toList.length + 1) a.toList b.toList

/-- Stable insertion of `x` into `l` (already ranked): `x` goes in front of
the first element it does not beat, so earlier-input elements keep their
relative order on ties. -/
def insortBy (key : String → ℕ) (x : String) : List String → List String
  | [] => [x]
  | y :: ys => if key x ≤ key y then x :: y :: ys else y :: insortBy key x ys

/-- Stable sort ascending by `key`. -/
def isortBy (key : String → ℕ) : List String → List String
  | [] => []
  | x :: xs => insortBy key x (isortBy key xs)

/-- Modelled from the spec: the external `distance.Levenshtein` ranking
(package `github.com/midbel/distance`, not part of this repository's
sources) returns the candidate names ordered by ascending edit distance
to the unmatched token, stable on ties. -/
def levRank (cmd : String) (list : List String) : List String :=
  isortBy (fun x => lev cmd x) list

/-- Embeds `SuggestError.Similar`: collect the canonical names of runnable
commands other than the unmatched token itself, then rank them. -/
def Similar (cmd : String) (others : List Command) : List String :=
  levRank cmd ((others.filter (fun c => c.Runnable ∧ c.name ≠ cmd)).map (·.name))

/-! ## Exit/error translation (`RunAndExit`) -/

/-- Embeds the error branch of `RunAndExit` (taken whenever `Run` returns a
non-nil error `err`): resolve the exit code, the line printed to the error
stream, and the suggestion list (printed under a header when non-empty).
`errors.As` is tried for `SuggestError` first, then for `*ExitError`. -/
def runAndExitOutcome (exec : String) (cs : List Command) (err : GoError) :
    ℤ × String × List String :=
  match findSuggest err with
  | some cmd => (1, errMsg exec err, Similar cmd cs)
  | none =>
    match findExit err with
    | some (code, inner) => (code, errMsg exec inner, [])
    | none => (1, errMsg exec err, [])

/-! ## Sample registry entries used in concrete instantiations -/

/-- A runnable command whose canonical name is `version`. -/
def versionCmd : Command := { Usage := "version print the version", Run := some (fun _ => none) }

/-- A runnable command flagged as the default. -/
def serveCmd : Command :=
  { Usage := "serve the site", Default := true, Run := some (fun _ => none) }

/-- A runnable command whose canonical name is `build`. -/
def buildCmd : Command := { Usage := "build the site", Run := some (fun _ => none) }

/-! # Theorems

General lemmas first, then one theorem per verified claim (with its
witness or counterexample where required). -/

theorem mem_insortBy (key : String → ℕ) (x a : String) (l : List String) :
    a ∈ insortBy key x l ↔ a = x ∨ a ∈ l := by
  induction l with
  | nil => simp [insortBy]
  | cons y ys ih =>
    unfold insortBy
    split
    · simp
    · simp [ih]; tauto

theorem mem_isortBy (key : String → ℕ) (a : String) (l : List String) :
    a ∈ isortBy key l ↔ a ∈ l := by
  induction l with
  | nil => simp [isortBy]
  | cons x xs ih => simp [isortBy, mem_insortBy, ih]

theorem find?_eq_of_filter_eq_singleton {p : Command → Bool} {l : List Command}
    {d : Command} (h : l.filter p = [d]) : l.find? p = some d := by
  induction l with
  | nil => simp at h
  | cons c cs ih =>
    by_cases hc : p c
    · rw [List.filter_cons_of_pos hc] at h
      rw [List.find?_cons_of_pos _ hc]
      exact congrArg some (List.cons.injEq .. ▸ h).1
    · rw [List.filter_cons_of_neg hc] at h
      rw [List.find?_cons_of_neg _ hc]
      exact ih h

theorem stateAfter_sizes (m : MultiSize) (k : ℕ) : (m.stateAfter k).sizes = m.sizes := by
  induction k with
  | zero => rfl
  | succ k ih => simp [MultiSize.stateAfter, MultiSize.next, ih]

theorem stateAfter_curr (m : MultiSize) (h : m.curr < U32) (k : ℕ) :
    (m.stateAfter k).curr = (m.curr + k) % U32 := by
  induction k with
  | zero => simpa [MultiSize.stateAfter] using (Nat.mod_eq_of_lt h).symm
  | succ k ih =>
    show ((m.stateAfter k).curr + 1) % U32 = (m.curr + (k + 1)) % U32
    rw [ih]
    simp only [U32]
    omega

theorem call_eq (m : MultiSize) (h : m.curr < U32) (k : ℕ) :
    m.call k = m.sizes.getD (((m.curr + k + 1) % U32) % m.sizes.length) 0 := by
  simp only [MultiSize.call, MultiSize.next]
  rw [stateAfter_sizes, stateAfter_curr m h k]
  congr 2
  simp only [U32]
  omega

/-- C7: `Size.Set` parses `"512KB"` to `524288` bytes and `"1b"` to `1/8`
of a byte, rejects the unknown suffix in `"5XB"` with an error naming
`"XB"`, and realises the closed case-sensitive suffix grammar: empty
suffix or `B` unscaled, uppercase suffixes multiplied by powers of 1024,
lowercase suffixes additionally divided by 8 (bits). -/
theorem sizeSet_units :
    sizeSet 0 "512KB" = (none, 524288) ∧
    sizeSet 0 "1b" = (none, 1 / 8) ∧
    (sizeSet 0 "5XB").1 = some ("unknown unit given " ++ "XB") ∧
    unitFactor "" = some 1 ∧ unitFactor "B" = some 1 ∧
    unitFactor "b" = some (1 / 8) ∧
    unitFactor "KB" = some 1024 ∧ unitFactor "K" = some 1024 ∧
    unitFactor "kb" = some (1024 / 8) ∧ unitFactor "k" = some (1024 / 8) ∧
    unitFactor "MB" = some (1024 * 1024) ∧ unitFactor "mb" = some (1024 * 1024 / 8) ∧
    unitFactor "GB" = some (1024 * 1024 * 1024) ∧
    unitFactor "gb" = some (1024 * 1024 * 1024 / 8) ∧
    unitFactor "XB" = none := by
  have h1 : scanSize "512KB" = some (⟨false, 512, 0, false, 0⟩, "KB") := by decide
  have h2 : scanSize "1b" = some (⟨false, 1, 0, false, 0⟩, "b") := by decide
  have h3 : scanSize "5XB" = some (⟨false, 5, 0, false, 0⟩, "XB") := by decide
  refine ⟨?_, ?_, ?_, rfl, rfl, rfl, rfl, rfl, rfl, rfl, rfl, rfl, rfl, rfl, rfl⟩
  · rw [show (524288 : ℚ) = FloatTok.value ⟨false, 512, 0, false, 0⟩ * 1024 by
      norm_num [FloatTok.value]]
    simp [sizeSet, h1, unitFactor]
  · rw [show (1 / 8 : ℚ) = FloatTok.value ⟨false, 1, 0, false, 0⟩ * (1 / 8) by
      norm_num [FloatTok.value]]
    simp [sizeSet, h2, unitFactor]
  · simp [sizeSet, h3, unitFactor]

/-- C9: whenever `Size.Set` returns a non-nil error — the numeric scan
consumed nothing, or the suffix is unknown — the receiver holds exactly
the value it held before the call; `Set` writes it only on success. -/
theorem sizeSet_error_preserves (s : ℚ) (v : String) (e : String)
    (h : (sizeSet s v).1 = some e) : (sizeSet s v).2 = s := by
  unfold sizeSet at *
  cases hs : scanSize v with
  | none => simp [hs]
  | some tu =>
    obtain ⟨t, u⟩ := tu
    cases hu : unitFactor u with
    | none => simp [hs, hu]
    | some k => simp [hs, hu] at h

theorem sizeSet_error_preserves_witness :
    (sizeSet 3 "5XB").1 = some "unknown unit given XB" ∧ (sizeSet 3 "5XB").2 = 3 :=
  ⟨by decide, sizeSet_error_preserves 3 "5XB" "unknown unit given XB" (by decide)⟩

/-- C8 counterexample: in the MB bucket `formatSize` divides by `1024^2`
— exactly the reported unit's own threshold (one megabyte), not the next
unit's: at `s = 2·1024²` the printed magnitude is `2`, not `s / 1024³`
(the GB divisor) nor `s / 1024⁴`. -/
theorem formatSize_mb_own_threshold :
    (formatSize (2 * 1024 ^ 2)).2 = "MB" ∧
    (formatSize (2 * 1024 ^ 2)).1 = (2 * 1024 ^ 2 : ℚ) / 1024 ^ 2 ∧
    (formatSize (2 * 1024 ^ 2)).1 ≠ (2 * 1024 ^ 2 : ℚ) / 1024 ^ 3 ∧
    (formatSize (2 * 1024 ^ 2)).1 ≠ (2 * 1024 ^ 2 : ℚ) / 1024 ^ 4 := by
  have h : formatSize (2 * 1024 ^ 2) = ((2 : ℚ), "MB") := by
    simp only [formatSize, Kilo, Mega, Giga]
    norm_num
  rw [h]
  norm_num

/-- C8 amended: `formatSize` buckets with 1024-based thresholds and prints
the magnitude with two fractional digits followed by the unit; the KB
bucket divides the byte count by `1024^3` (the GB divisor — neither its
own unit value `1024` nor the next unit's value `1024^2`), while the MB
bucket divides by `1024^2`, its own unit value (conventional scaling),
and the GB bucket by `1024^3`. -/
theorem formatSize_buckets (s : ℚ) :
    (s < 1024 → formatSize s = (s, "B")) ∧
    (1024 ≤ s → s < 1024 ^ 2 →
      formatSize s = (s / 1024 ^ 3, "KB") ∧
      (formatSize s).1 ≠ s / 1024 ∧ (formatSize s).1 ≠ s / 1024 ^ 2) ∧
    (1024 ^ 2 ≤ s → s < 1024 ^ 3 → formatSize s = (s / 1024 ^ 2, "MB")) ∧
    (1024 ^ 3 ≤ s → formatSize s = (s / 1024 ^ 3, "GB")) ∧
    formatSizeStr s = fixed2 (formatSize s).1 ++ (formatSize s).2 := by
  have hKM : (1024 : ℚ) ≤ 1024 ^ 2 := by norm_num
  have hMG : (1024 : ℚ) ^ 2 ≤ 1024 ^ 3 := by norm_num
  have hfs : ∀ t : ℚ, formatSize t =
      (if t < 1024 then ((t, "B") : ℚ × String)
        else if 1024 ≤ t ∧ t < 1024 ^ 2 then (t / 1024 ^ 3, "KB")
        else if 1024 ^ 2 ≤ t ∧ t < 1024 ^ 3 then (t / 1024 ^ 2, "MB")
        else (t / 1024 ^ 3, "GB")) := by
    intro t
    simp only [formatSize, Kilo, Mega, Giga]
    norm_num
  refine ⟨?_, ?_, ?_, ?_, rfl⟩
  · intro h
    rw [hfs, if_pos h]
  · intro h1 h2
    have hs : (0 : ℚ) < s := lt_of_lt_of_le (by norm_num) h1
    have hfmt : formatSize s = (s / 1024 ^ 3, "KB") := by
      rw [hfs, if_neg (not_lt.mpr h1), if_pos ⟨h1, h2⟩]
    rw [hfmt]
    have key : ∀ a : ℚ, (1024 : ℚ) ^ 3 ≠ a → s / 1024 ^ 3 ≠ s / a := by
      intro a ha hc
      rw [div_eq_mul_inv, div_eq_mul_inv] at hc
      exact ha (inv_injective (mul_left_cancel₀ (ne_of_gt hs) hc))
    exact ⟨rfl, key 1024 (by norm_num), key (1024 ^ 2) (by norm_num)⟩
  · intro h1 h2
    rw [hfs, if_neg (not_lt.mpr (le_trans hKM h1)),
      if_neg (fun hh => absurd hh.2 (not_lt.mpr h1)), if_pos ⟨h1, h2⟩]
  · intro h1
    rw [hfs, if_neg (not_lt.mpr (le_trans (le_trans hKM hMG) h1)),
      if_neg (fun hh => absurd hh.2 (not_lt.mpr (le_trans hMG h1))),
      if_neg (fun hh => absurd hh.2 (not_lt.mpr h1))]

theorem formatSize_buckets_witness :
    formatSize 2048 = ((2048 : ℚ) / 1024 ^ 3, "KB") ∧
    (formatSize 2048).1 ≠ (2048 : ℚ) / 1024 := by
  have h := (formatSize_buckets 2048).2.1 (by norm_num) (by norm_num)
  exact ⟨h.1, h.2.1⟩

/-- C5 counterexample: with the 32-bit counter two steps short of
wraparound, the fourth `Next` call does not repeat the first (`2^32` is
not divisible by 3, so the phase shifts at wraparound): the claim's
universally quantified "the (k+n)-th call returns the same element as the
k-th call" fails at this state for k = 1, n = 3. -/
theorem next_wraparound_breaks_cycle :
    MultiSize.call ⟨false, U32 - 2, [1024, 2048, 3072]⟩ (0 + 3) ≠
      MultiSize.call ⟨false, U32 - 2, [1024, 2048, 3072]⟩ 0 := by
  have h3 : MultiSize.call ⟨false, U32 - 2, [1024, 2048, 3072]⟩ (0 + 3) = 3072 := rfl
  have h0 : MultiSize.call ⟨false, U32 - 2, [1024, 2048, 3072]⟩ 0 = 1024 := rfl
  rw [h0, h3]
  norm_num

/-- C5 amended: `Next` cycles round-robin with cycle length exactly `n`
as long as the 32-bit counter does not wrap around between the compared
calls: each call advances the counter by one (modulo `2^32`) and returns
the element at `counter mod n`, so under the no-wraparound side condition
the (k+n)-th call repeats the k-th; for the sequence `[1KB, 2KB, 3KB]` and
a fresh counter the first three calls visit 2048, 3072, 1024 — each byte
count exactly once — and the fourth call repeats the first. -/
theorem next_round_robin (m : MultiSize) (n k : ℕ) (hn : m.sizes.length = n)
    (hpos : 0 < n) (hcurr : m.curr < U32) (hwrap : m.curr + k + n + 1 < U32) :
    m.call (k + n) = m.call k ∧
    m.call k = m.sizes.getD ((m.curr + k + 1) % n) 0 ∧
    (m.stateAfter (k + 1)).curr = ((m.stateAfter k).curr + 1) % U32 ∧
    (MultiSize.call ⟨false, 0, [1024, 2048, 3072]⟩ 0 = 2048 ∧
      MultiSize.call ⟨false, 0, [1024, 2048, 3072]⟩ 1 = 3072 ∧
      MultiSize.call ⟨false, 0, [1024, 2048, 3072]⟩ 2 = 1024 ∧
      MultiSize.call ⟨false, 0, [1024, 2048, 3072]⟩ 3 =
        MultiSize.call ⟨false, 0, [1024, 2048, 3072]⟩ 0) := by
  have e1 : m.call k = m.sizes.getD ((m.curr + k + 1) % n) 0 := by
    rw [call_eq m hcurr k, hn, Nat.mod_eq_of_lt (show m.curr + k + 1 < U32 by omega)]
  have e2 : m.call (k + n) = m.sizes.getD ((m.curr + k + 1) % n) 0 := by
    rw [call_eq m hcurr (k + n), hn,
      Nat.mod_eq_of_lt (show m.curr + (k + n) + 1 < U32 by omega),
      show m.curr + (k + n) + 1 = m.curr + k + 1 + n by omega, Nat.add_mod_right]
  refine ⟨e2.trans e1.symm, e1, ?_, rfl, rfl, rfl, rfl⟩
  simp [MultiSize.stateAfter, MultiSize.next]

theorem next_round_robin_witness :
    MultiSize.call ⟨false, 0, [1024, 2048, 3072]⟩ (0 + 3) =
      MultiSize.call ⟨false, 0, [1024, 2048, 3072]⟩ 0 ∧
    MultiSize.call ⟨false, 0, [1024, 2048, 3072]⟩ 0 =
      [(1024 : ℚ), 2048, 3072].getD ((0 + 0 + 1) % 3) 0 := by
  have h := next_round_robin ⟨false, 0, [1024, 2048, 3072]⟩ 3 0 rfl (by norm_num)
    (by norm_num [U32]) (by norm_num [U32])
  exact ⟨h.1, h.2.1⟩

/-- C6: with the range contract of `rand.Int63n` assumed for the oracle,
`Int()` returns the rotated element's (truncated) byte count when `Alea`
is unset and an integer in `[0, element_bytes)` when it is set, while
`Float()` returns the rotated element's byte count whatever `Alea` is —
the random-mode branch of `Float` is a no-op (flipping `Alea` does not
change its result). -/
theorem int_float_alea (m : MultiSize) (rng : ℤ → ℤ)
    (hrng : ∀ n : ℤ, 0 < n → 0 ≤ rng n ∧ rng n < n) :
    (m.Alea = false → (m.int rng).1 = some (truncInt m.next.1)) ∧
    (m.Alea = true → 0 < truncInt m.next.1 →
      ∃ r, (m.int rng).1 = some r ∧ 0 ≤ r ∧ r < truncInt m.next.1) ∧
    m.float.1 = m.next.1 ∧
    ({ m with Alea := true } : MultiSize).float.1 =
      ({ m with Alea := false } : MultiSize).float.1 := by
  refine ⟨?_, ?_, rfl, rfl⟩
  · intro h
    simp [MultiSize.int, h]
  · intro hA hpos
    refine ⟨rng (truncInt m.next.1), ?_, (hrng _ hpos).1, (hrng _ hpos).2⟩
    simp [MultiSize.int, hA, if_neg (not_le.mpr hpos)]

theorem int_float_alea_witness :
    (MultiSize.int ⟨false, 5, [7]⟩ (fun _ => 0)).1 =
      some (truncInt (MultiSize.next ⟨false, 5, [7]⟩).1) :=
  (int_float_alea ⟨false, 5, [7]⟩ (fun _ => 0) (fun _ hn => ⟨le_refl 0, hn⟩)).1 rfl

/-- C10: when `Alea` is set, `Int()` reaches `rand.Int63n` with the
rotated element's truncated byte count, which panics unless that count is
strictly positive; a sub-byte element such as the `1/8` byte parsed from
`"1b"` (or a zero element) therefore makes the call panic instead of
returning, while a strictly positive truncated count returns normally. -/
theorem int_alea_panics_nonpositive (m : MultiSize) (rng : ℤ → ℤ)
    (hA : m.Alea = true) :
    (truncInt m.next.1 ≤ 0 → (m.int rng).1 = none) ∧
    (0 < truncInt m.next.1 → (m.int rng).1 = some (rng (truncInt m.next.1))) ∧
    truncInt ((1 : ℚ) / 8) = 0 ∧ (sizeSet 0 "1b").2 = 1 / 8 ∧
    (MultiSize.int ⟨true, 0, [1 / 8]⟩ rng).1 = none := by
  have ht : truncInt ((1 : ℚ) / 8) = 0 := by
    rw [truncInt, if_pos (by norm_num)]
    norm_num
  refine ⟨?_, ?_, ht, ?_, ?_⟩
  · intro h
    simp [MultiSize.int, hA, if_pos h]
  · intro h
    simp [MultiSize.int, hA, if_neg (not_le.mpr h)]
  · have h2 : scanSize "1b" = some (⟨false, 1, 0, false, 0⟩, "b") := by decide
    rw [show (1 / 8 : ℚ) = FloatTok.value ⟨false, 1, 0, false, 0⟩ * (1 / 8) by
      norm_num [FloatTok.value]]
    simp [sizeSet, h2, unitFactor]
  · rw [show (MultiSize.int ⟨true, 0, [1 / 8]⟩ rng).1 =
        if truncInt ((1 : ℚ) / 8) ≤ 0 then none
        else some (rng (truncInt ((1 : ℚ) / 8))) from rfl, ht]
    rw [if_pos (le_refl (0 : ℤ))]

theorem int_alea_panics_nonpositive_witness :
    (MultiSize.int ⟨true, 7, [1 / 8]⟩ (fun _ => 3)).1 = none := by
  have h := int_alea_panics_nonpositive ⟨true, 7, [1 / 8]⟩ (fun _ => 3) rfl
  refine h.1 ?_
  rw [show (MultiSize.next ⟨true, 7, [1 / 8]⟩).1 = (1 : ℚ) / 8 from rfl, h.2.2.1]

/-- C4 (with the external `distance.Levenshtein` ranking modelled from the
spec as a stable ascending sort of its input): every candidate produced by
`SuggestError.Similar` is the canonical name of some runnable command of
the registry, and never equals the unmatched token itself. -/
theorem similar_candidates (cs : List Command) (cmd x : String)
    (hx : x ∈ Similar cmd cs) :
    (∃ c ∈ cs, c.Runnable = true ∧ c.name = x) ∧ x ≠ cmd := by
  unfold Similar levRank at hx
  rw [mem_isortBy, List.mem_map] at hx
  obtain ⟨c, hc, hname⟩ := hx
  rw [List.mem_filter] at hc
  obtain ⟨hmem, hp⟩ := hc
  simp only [decide_eq_true_eq, Bool.decide_and, Bool.and_eq_true] at hp
  exact ⟨⟨c, hmem, hp.1, hname⟩, hname ▸ (by simpa using hp.2)⟩

theorem similar_candidates_witness :
    ((∃ c ∈ [buildCmd], c.Runnable = true ∧ c.name = "build") ∧ "build" ≠ "b") :=
  similar_candidates [buildCmd] "b" "build" (by decide)

/-- C1: for every error returned by `Run`, the translation in `RunAndExit`
resolves the exit code and printed message as follows — a suggestion error
(anywhere on the unwrap chain, checked first) exits with the generic bad
exit code 1; otherwise an error unwrapping to an `ExitError` exits with
its carried code and prints the wrapped underlying error's message;
otherwise code 1 with the error's own message. In particular an exit
error with code 7 wrapping the message `disk full` exits with 7 and
prints exactly `disk full`. -/
theorem run_and_exit_translation (exec : String) (cs : List Command) (err : GoError) :
    ((findSuggest err).isSome = true → (runAndExitOutcome exec cs err).1 = 1) ∧
    (findSuggest err = none → ∀ code inner, findExit err = some (code, inner) →
      runAndExitOutcome exec cs err = (code, errMsg exec inner, [])) ∧
    (findSuggest err = none → findExit err = none →
      runAndExitOutcome exec cs err = (1, errMsg exec err, [])) ∧
    runAndExitOutcome exec cs (.exit 7 (.mk "disk full")) = (7, "disk full", []) := by
  refine ⟨?_, ?_, ?_, rfl⟩
  · intro h
    obtain ⟨c, hc⟩ := Option.isSome_iff_exists.mp h
    simp [runAndExitOutcome, hc]
  · intro hnone code inner hexit
    simp [runAndExitOutcome, hnone, hexit]
  · intro hnone hexit
    simp [runAndExitOutcome, hnone, hexit]

theorem run_and_exit_translation_witness :
    runAndExitOutcome "prog" [] (.wrap "context" (.exit 9 (.mk "boom"))) =
      (9, "boom", []) := by
  have h := run_and_exit_translation "prog" [] (.wrap "context" (.exit 9 (.mk "boom")))
  exact h.2.1 (by decide) 9 (.mk "boom") (by decide)

/-- C3: when the global flag parse fails with the `flag provided but not
defined` (unknown flag) message, `Run` hands the full original argument
list `os.Args[1:]` to the single default command when one exists, returns
an error when no default command exists, and returns any other
global-flag parse failure verbatim with no fallback. -/
theorem run_default_fallback (cs : List Command) (osArgs gargs : List String)
    (msg : String) (hp : parseGlobal osArgs = .fail msg) :
    (strHasPrefix msg "flag provided but not defined" = true →
      (∀ d : Command, cs.filter (·.Default) = [d] →
        Run cs osArgs gargs = .dispatched d osArgs) ∧
      (cs.filter (·.Default) = [] →
        Run cs osArgs gargs = .error (.mk "no sub-command given!"))) ∧
    (strHasPrefix msg "flag provided but not defined" = false →
      Run cs osArgs gargs = .error (.mk msg)) := by
  constructor
  · intro hpre
    constructor
    · intro d hd
      simp only [Run, hp, if_neg (not_not_intro hpre), tryDefault,
        find?_eq_of_filter_eq_singleton hd]
    · intro hnil
      simp only [Run, hp, if_neg (not_not_intro hpre), tryDefault,
        List.find?_eq_none.mpr (List.filter_eq_nil_iff.mp hnil)]
  · intro hfalse
    simp [Run, hp, hfalse]

theorem run_default_fallback_witness :
    Run [serveCmd] ["-x"] [] = .dispatched serveCmd ["-x"] := by
  have h := run_default_fallback [serveCmd] ["-x"] []
    "flag provided but not defined: -x" (by decide)
  exact (h.1 (by decide)).1 serveCmd rfl

/-- C2: the code at the claim's failing input. `Run` tests
`flag.NArg() > 0 && flag.Arg(0) == "version"` against the package-global
flag set, which nothing in the program ever parses (the parse results
live in the local `fset`), so that conjunct is always false and a first
positional token `version` never triggers the version printer: it is
dispatched like any sub-command name (or becomes a suggestion error) —
contradicting the claimed priority — while the `-v`/`--version` flags do
print the version line and return success. -/
theorem run_version_token_dead :
    Run [versionCmd] ["version"] [] = .dispatched versionCmd [] ∧
    Run [] ["version"] [] = .error (.suggest "version") ∧
    Run [] ["-v"] [] = .version ∧
    Run [] ["--version"] [] = .version ∧
    (∀ cs osArgs short long pos, parseGlobal osArgs = .ok short long pos →
      short = false → long = false → Run cs osArgs [] ≠ .version) := by
  refine ⟨rfl, rfl, rfl, rfl, ?_⟩
  intro cs osArgs short long pos hp hs hl
  simp only [Run, hp, hs, hl]
  norm_num
  split
  · simp
  · cases hlk : lookupCmd cs (pos.head?.getD "") <;> simp [hlk]

end Cli
